import Mathlib

/-!
Shallow embedding of the resource-pool library.

The embedded code is the primary implementation: `ResourcePool`
(WeakMap-based private state: `poolSizes`, `intervals`, `callbacks`,
`cycles`, `currentPoolSize`), `ResourceGroup`, `ErrorMessages` and the
`utils` predicates.

Numeric constructor arguments are JavaScript numbers; we embed them as
rationals (`ℚ`), which faithfully represents the positivity and
integrality checks the validator performs.  Validated pool state uses
`Int`, since `remaining` only ever holds integer values produced by
integer arithmetic.  The callback argument is embedded as the Boolean
outcome of the `typeof fn === 'function'` test, the only observation the
code makes of it; invocation of the callback is recorded as an event flag.

The `cycles` WeakMap entry for a pool is embedded as
`Option TimerHandle`: `none` when the map has no entry for the pool,
`some .live` when it holds the id of a scheduled (pending) timeout, and
`some .cancelled` when it holds an id whose timeout was cleared by
`destroy` (the code clears the timeout but never deletes the map entry).
A timeout callback can run only while its timer is still scheduled, so
the timer-fired transition is guarded by `cycle = some .live`.
-/

namespace ResourcePoolModel

/-- The `utils.isPositive` predicate: `num > 0`. -/
def isPositive (num : ℚ) : Bool :=
  decide (0 < num)

/-- The `utils.isInt` predicate: `num === parseInt(num, 10)`, i.e. the
number is integer-valued. -/
def isInt (num : ℚ) : Bool :=
  decide (num.den = 1)

/-- The five distinct messages of the `ErrorMessages` class.  The code
throws `new Error(message)`, so the message is the error's identity;
note there is no separate interval-type message. -/
inductive ErrorMessage where
  | invalidPoolSizeValue
  | invalidPoolSizeType
  | invalidIntervalValue
  | invalidCallbackType
  | noResourcePoolsFound
  deriving Repr, DecidableEq

/-- State of the `cycles` WeakMap entry for a pool: a stored timeout id
whose timer is still scheduled (`live`), or a stored timeout id whose
timer was cleared by `destroy` (`cancelled`). -/
inductive TimerHandle where
  | live
  | cancelled
  deriving Repr, DecidableEq

/-- The per-pool private state held in the WeakMaps: `poolSizes`,
`intervals`, `currentPoolSize`, `cycles`. -/
structure PoolState where
  poolSize : Int
  interval : Int
  remaining : Int
  cycle : Option TimerHandle
  deriving Repr, DecidableEq

/-- The `exhausted` getter: `remaining <= 0`. -/
def PoolState.exhausted (p : PoolState) : Bool :=
  decide (p.remaining ≤ 0)

/-- `ResourcePool.consume`: returns `false` on an exhausted pool,
otherwise decrements `currentPoolSize` and, when `cycles` has no entry
for the pool, starts a cycle (stores a live timeout id), returning
`true`. -/
def PoolState.consume (p : PoolState) : Bool × PoolState :=
  if p.exhausted then (false, p)
  else
    let p1 : PoolState := { p with remaining := p.remaining - 1 }
    if p1.cycle.isSome then (true, p1)
    else (true, { p1 with cycle := some .live })

/-- The body of the timeout scheduled by `startCycle`, run when the
timer fires: deletes the `cycles` entry, captures `pool.exhausted`,
runs `replenish` (resets `currentPoolSize` to `poolSizes.get(pool)`),
and reports whether the callback is invoked (iff the captured flag). -/
def PoolState.fire (p : PoolState) : PoolState × Bool :=
  let p1 : PoolState := { p with cycle := none }
  let lasExhausted := p1.exhausted
  let p2 : PoolState := { p1 with remaining := p1.poolSize }
  (p2, lasExhausted)

/-- `ResourcePool.destroy`: when `cycles` has an entry, clears the
timeout it stores; the entry itself is never deleted. -/
def PoolState.destroy (p : PoolState) : PoolState :=
  match p.cycle with
  | some _ => { p with cycle := some .cancelled }
  | none => p

/-- The `ResourcePool` constructor: validation checks in source order,
then stores the parameters and runs `replenish(this)`, so the pool
starts full with no `cycles` entry. -/
def mkResourcePool (poolSize interval : ℚ) (callbackIsFunction : Bool) :
    Except ErrorMessage PoolState :=
  if !isPositive poolSize then .error .invalidPoolSizeValue
  else if !isInt poolSize then .error .invalidPoolSizeType
  else if !isPositive interval then .error .invalidIntervalValue
  else if !isInt interval then .error .invalidIntervalValue
  else if !callbackIsFunction then .error .invalidCallbackType
  else .ok { poolSize := poolSize.num, interval := interval.num,
             remaining := poolSize.num, cycle := none }

/-- The externally observable operations on one pool: a `consume()`
call, the armed timer firing, and a `destroy()` call. -/
inductive PoolOp where
  | consume
  | fire
  | destroy
  deriving Repr, DecidableEq

/-- Outcome of one operation: the new state, whether `replenish` ran in
this step, and whether the pool's callback was invoked in this step. -/
structure StepResult where
  state : PoolState
  replenished : Bool
  callbackInvoked : Bool
  deriving Repr, DecidableEq

/-- One step of the pool's event system.  A `fire` step is possible
only while a scheduled timer exists (`cycle = some .live`): a cleared
or absent timeout never runs, so otherwise `fire` changes nothing. -/
def PoolState.step (p : PoolState) : PoolOp → StepResult
  | .consume => ⟨(p.consume).2, false, false⟩
  | .fire =>
    if p.cycle = some .live then ⟨(p.fire).1, true, (p.fire).2⟩
    else ⟨p, false, false⟩
  | .destroy => ⟨p.destroy, false, false⟩

/-- Run a sequence of operations. -/
def PoolState.run (p : PoolState) : List PoolOp → PoolState
  | [] => p
  | op :: ops => ((p.step op).state).run ops

/-- Whether `replenish` runs at some point along an operation
sequence. -/
def PoolState.anyReplenish (p : PoolState) : List PoolOp → Bool
  | [] => false
  | op :: ops => (p.step op).replenished || ((p.step op).state).anyReplenish ops

/-- Whether the pool's callback is invoked at some point along an
operation sequence. -/
def PoolState.anyCallback (p : PoolState) : List PoolOp → Bool
  | [] => false
  | op :: ops => (p.step op).callbackInvoked || ((p.step op).state).anyCallback ops

/-- Repeated `consume()` calls; the flag is the conjunction of the
returned Booleans. -/
def PoolState.consumeN : PoolState → Nat → PoolState × Bool
  | p, 0 => (p, true)
  | p, n + 1 =>
    let r1 := p.consume
    let r2 := (r1.2).consumeN n
    (r2.1, r1.1 && r2.2)

/-- `ResourceGroup#remaining`: throws `NO_RESOURCE_POOLS_FOUND` on an
empty member list, otherwise `Math.min` over the members' `remaining`
values. -/
def groupRemaining (poolList : List PoolState) : Except ErrorMessage Int :=
  match poolList.map (fun p => p.remaining) with
  | [] => .error .noResourcePoolsFound
  | r :: rs => .ok (rs.foldl min r)

/-- `ResourceGroup#exhausted`: `this.remaining <= 0`, propagating the
empty-group error of the `remaining` getter. -/
def groupExhausted (poolList : List PoolState) : Except ErrorMessage Bool :=
  (groupRemaining poolList).map (fun r => decide (r ≤ 0))

/-- `ResourceGroup.consume`: reads `this.exhausted` (which can throw),
returns `false` when exhausted, otherwise calls `consume()` on every
member in insertion order and returns `true`. -/
def groupConsume (poolList : List PoolState) :
    Except ErrorMessage (Bool × List PoolState) :=
  match groupExhausted poolList with
  | .error e => .error e
  | .ok true => .ok (false, poolList)
  | .ok false => .ok (true, poolList.map (fun p => (p.consume).2))

/-- `ResourceGroup.destroy`: calls `destroy()` on every member. -/
def groupDestroy (poolList : List PoolState) : List PoolState :=
  poolList.map (fun p => p.destroy)

/-- The invariant of a validated pool: positive capacity and
`0 ≤ remaining ≤ capacity`. -/
def PoolInv (p : PoolState) : Prop :=
  0 < p.poolSize ∧ 0 ≤ p.remaining ∧ p.remaining ≤ p.poolSize

/-- The rational 7/2, a positive non-integer number used as a concrete
invalid constructor argument. -/
def ratSevenHalves : ℚ := ⟨7, 2, by norm_num, by norm_num⟩

theorem consume_of_exhausted (p : PoolState) (h : p.remaining ≤ 0) :
    p.consume = (false, p) := by
  simp [PoolState.consume, PoolState.exhausted, h]

theorem consume_of_not_exhausted (p : PoolState) (h : 0 < p.remaining) :
    (p.consume).1 = true ∧ (p.consume).2.remaining = p.remaining - 1 ∧
    (p.consume).2.poolSize = p.poolSize ∧ (p.consume).2.interval = p.interval ∧
    (p.consume).2.cycle = (if p.cycle.isSome then p.cycle else some .live) := by
  have hex : p.exhausted = false := by
    simp [PoolState.exhausted]; omega
  simp only [PoolState.consume, hex, Bool.false_eq_true, if_false]
  split <;> simp_all

theorem consumeN_drains (n : Nat) (p : PoolState) (h : (n : Int) ≤ p.remaining) :
    (p.consumeN n).2 = true ∧ (p.consumeN n).1.remaining = p.remaining - n ∧
    (p.consumeN n).1.poolSize = p.poolSize := by
  induction n generalizing p with
  | zero => simp [PoolState.consumeN]
  | succ n ih =>
    have hpos : 0 < p.remaining := by
      have : ((n : Int) + 1) ≤ p.remaining := by exact_mod_cast h
      omega
    obtain ⟨h1, h2, h3, _, _⟩ := consume_of_not_exhausted p hpos
    have hn : (n : Int) ≤ ((p.consume).2).remaining := by
      rw [h2]
      have : ((n : Int) + 1) ≤ p.remaining := by exact_mod_cast h
      omega
    obtain ⟨g1, g2, g3⟩ := ih ((p.consume).2) hn
    refine ⟨?_, ?_, ?_⟩
    · simp [PoolState.consumeN, g1, h1]
    · simp only [PoolState.consumeN]
      rw [g2, h2]
      push_cast
      ring
    · simp only [PoolState.consumeN]
      rw [g3, h3]

/-- Claim C1: on an exhausted pool `consume()` returns `false` and
changes nothing; otherwise it decrements `remaining` by one, arms a
replenishment timer exactly when no timer-handle record is currently
present (the spec's notion of an armed timer), and returns `true`; and
from a full pool of capacity `c`, `c` successive `consume()` calls all
return `true` leaving `remaining = 0`, while the next call returns
`false` and changes nothing. -/
theorem consume_contract (p q : PoolState) (c : Int)
    (hfull : p.remaining = c) (hcap : p.poolSize = c) (hc : 0 < c) :
    (q.exhausted = true → q.consume = (false, q)) ∧
    (q.exhausted = false →
       (q.consume).1 = true ∧ (q.consume).2.remaining = q.remaining - 1 ∧
       (q.consume).2.poolSize = q.poolSize ∧ (q.consume).2.interval = q.interval ∧
       (q.consume).2.cycle = (if q.cycle.isSome then q.cycle else some .live)) ∧
    ((p.consumeN c.toNat).2 = true ∧ (p.consumeN c.toNat).1.remaining = 0 ∧
     ((p.consumeN c.toNat).1.consume) = (false, (p.consumeN c.toNat).1)) := by
  refine ⟨?_, ?_, ?_⟩
  · intro h
    have : q.remaining ≤ 0 := by
      have := of_decide_eq_true h
      exact this
    exact consume_of_exhausted q this
  · intro h
    have : 0 < q.remaining := by
      have := of_decide_eq_false h
      omega
    exact consume_of_not_exhausted q this
  · have hle : ((c.toNat : Int)) ≤ p.remaining := by
      rw [hfull]
      omega
    obtain ⟨h1, h2, _⟩ := consumeN_drains c.toNat p hle
    have hzero : (p.consumeN c.toNat).1.remaining = 0 := by
      rw [h2, hfull]
      omega
    exact ⟨h1, hzero, consume_of_exhausted _ (by omega)⟩

theorem consume_contract_check :
    (0 : Int) < 2 ∧
    ((⟨2, 1, 2, none⟩ : PoolState).consumeN 2).2 = true ∧
    ((⟨2, 1, 2, none⟩ : PoolState).consumeN 2).1.remaining = 0 :=
  ⟨by decide,
   (consume_contract ⟨2, 1, 2, none⟩ ⟨2, 1, 2, none⟩ 2 rfl rfl (by decide)).2.2.1,
   (consume_contract ⟨2, 1, 2, none⟩ ⟨2, 1, 2, none⟩ 2 rfl rfl (by decide)).2.2.2.1⟩

/-- Claim C2: when the armed timer fires, the cycle-firing action
clears the timer-handle record, resets `remaining` to capacity, and
invokes the callback exactly when the pool was exhausted immediately
before the action; the post-reset state the callback observes is a
full pool. -/
theorem fire_contract (p : PoolState) (h : p.cycle = some TimerHandle.live) :
    (p.step .fire).replenished = true ∧
    ((p.step .fire).state).cycle = none ∧
    ((p.step .fire).state).poolSize = p.poolSize ∧
    ((p.step .fire).state).remaining = p.poolSize ∧
    ((p.step .fire).state).remaining = ((p.step .fire).state).poolSize ∧
    (p.step .fire).callbackInvoked = p.exhausted := by
  simp [PoolState.step, h, PoolState.fire, PoolState.exhausted]

theorem fire_contract_check :
    ((⟨1, 1, 0, some .live⟩ : PoolState).step .fire).callbackInvoked =
      (⟨1, 1, 0, some .live⟩ : PoolState).exhausted ∧
    (((⟨1, 1, 0, some .live⟩ : PoolState).step .fire).state).remaining = 1 :=
  ⟨(fire_contract ⟨1, 1, 0, some .live⟩ rfl).2.2.2.2.2,
   (fire_contract ⟨1, 1, 0, some .live⟩ rfl).2.2.2.1⟩

theorem mk_ok_state (ps iv : ℚ) (cb : Bool) (p : PoolState)
    (h : mkResourcePool ps iv cb = .ok p) :
    p = ⟨ps.num, iv.num, ps.num, none⟩ ∧ 0 < ps.num := by
  by_cases h1 : isPositive ps
  · by_cases h2 : isInt ps
    · by_cases h3 : isPositive iv
      · by_cases h4 : isInt iv
        · by_cases h5 : cb
          · simp only [mkResourcePool, h1, h2, h3, h4, h5, Bool.not_true,
              Bool.false_eq_true, if_false, Except.ok.injEq] at h
            have hpos : 0 < ps := by simpa [isPositive] using h1
            exact ⟨h.symm, Rat.num_pos.mpr hpos⟩
          · simp [mkResourcePool, h1, h2, h3, h4, h5] at h
        · simp [mkResourcePool, h1, h2, h3, h4] at h
      · simp [mkResourcePool, h1, h2, h3] at h
    · simp [mkResourcePool, h1, h2] at h
  · simp [mkResourcePool, h1] at h

theorem inv_step (q : PoolState) (op : PoolOp) (h : PoolInv q) :
    PoolInv ((q.step op).state) := by
  obtain ⟨h1, h2, h3⟩ := h
  cases op with
  | consume =>
    show PoolInv (q.consume).2
    by_cases hex : 0 < q.remaining
    · obtain ⟨_, hr, hp, _, _⟩ := consume_of_not_exhausted q hex
      refine ⟨?_, ?_, ?_⟩ <;> simp only [hr, hp] <;> omega
    · push_neg at hex
      rw [consume_of_exhausted q hex]
      exact ⟨h1, h2, h3⟩
  | fire =>
    by_cases hc : q.cycle = some .live
    · refine ⟨?_, ?_, ?_⟩ <;> simp [PoolState.step, hc, PoolState.fire] <;> omega
    · simp only [PoolState.step, hc, if_false, if_neg hc]
      exact ⟨h1, h2, h3⟩
  | destroy =>
    show PoolInv q.destroy
    cases hc : q.cycle <;> simp only [PoolState.destroy, hc] <;> exact ⟨h1, h2, h3⟩

theorem inv_run (q : PoolState) (ops : List PoolOp) (h : PoolInv q) :
    PoolInv (q.run ops) := by
  induction ops generalizing q with
  | nil => exact h
  | cons op t ih =>
    simp only [PoolState.run]
    exact ih _ (inv_step q op h)

/-- Claim C6: a successfully constructed pool satisfies
`0 ≤ remaining ≤ capacity` (indeed `remaining = capacity`), and the
invariant is preserved by every operation — `consume()`, cycle firing
and `destroy()` — and hence along every operation sequence. -/
theorem pool_invariant (ps iv : ℚ) (cb : Bool) (p q : PoolState) (op : PoolOp)
    (ops : List PoolOp) :
    (mkResourcePool ps iv cb = .ok p → PoolInv p ∧ p.remaining = p.poolSize) ∧
    (PoolInv q → PoolInv ((q.step op).state)) ∧
    (PoolInv q → PoolInv (q.run ops)) := by
  refine ⟨?_, inv_step q op, inv_run q ops⟩
  intro h
  obtain ⟨hp, hnum⟩ := mk_ok_state ps iv cb p h
  subst hp
  exact ⟨⟨hnum, le_of_lt hnum, le_refl _⟩, rfl⟩

theorem pool_invariant_check :
    PoolInv ⟨2, 3, 2, none⟩ ∧
    PoolInv (((⟨2, 3, 1, some .live⟩ : PoolState).step .fire).state) :=
  ⟨((pool_invariant 2 3 true ⟨2, 3, 2, none⟩ ⟨2, 3, 1, some .live⟩ .fire []).1 rfl).1,
   (pool_invariant 2 3 true ⟨2, 3, 2, none⟩ ⟨2, 3, 1, some .live⟩ .fire []).2.1
     ⟨by decide, by decide, by decide⟩⟩

theorem step_keeps_uncancelled (q : PoolState) (op : PoolOp)
    (hop : op ≠ PoolOp.destroy) (h : q.cycle ≠ some .cancelled) :
    ((q.step op).state).cycle ≠ some .cancelled := by
  cases op with
  | consume =>
    show ((q.consume).2).cycle ≠ some .cancelled
    by_cases hex : 0 < q.remaining
    · obtain ⟨_, _, _, _, hc⟩ := consume_of_not_exhausted q hex
      rw [hc]
      split
      · exact h
      · simp
    · push_neg at hex
      rw [consume_of_exhausted q hex]
      exact h
  | fire =>
    by_cases hc : q.cycle = some .live
    · simp [PoolState.step, hc, PoolState.fire]
    · simp only [PoolState.step, if_neg hc]
      exact h
  | destroy => exact absurd rfl hop

theorem run_keeps_uncancelled (ops : List PoolOp) (q : PoolState)
    (hops : ∀ op ∈ ops, op ≠ PoolOp.destroy) (h : q.cycle ≠ some .cancelled) :
    (q.run ops).cycle ≠ some .cancelled := by
  induction ops generalizing q with
  | nil => exact h
  | cons op t ih =>
    simp only [PoolState.run]
    have h1 := step_keeps_uncancelled q op (hops op (by simp)) h
    exact ih _ (fun o ho => hops o (by simp [ho])) h1

/-- Claim C7 (amended): along every operation sequence that contains no
`destroy()`, a constructed pool's timer-handle record is present iff a
replenishment cycle is armed (a scheduled timer exists); `destroy()` on
a pool with an armed cycle cancels the timer yet leaves the handle
record in place, so after such a `destroy()` the record is present with
no cycle armed. -/
theorem timer_record_armed_iff (ps iv : ℚ) (cb : Bool) (p : PoolState)
    (ops : List PoolOp) (hok : mkResourcePool ps iv cb = .ok p)
    (hops : ∀ op ∈ ops, op ≠ PoolOp.destroy) :
    ((p.run ops).cycle.isSome = true ↔ (p.run ops).cycle = some .live) ∧
    (∀ r : PoolState, r.cycle = some TimerHandle.live →
       (r.destroy).cycle = some TimerHandle.cancelled ∧
       (r.destroy).cycle.isSome = true) := by
  constructor
  · obtain ⟨hp, _⟩ := mk_ok_state ps iv cb p hok
    have h0 : p.cycle ≠ some .cancelled := by rw [hp]; simp
    have h := run_keeps_uncancelled ops p hops h0
    cases hc : (p.run ops).cycle with
    | none => simp
    | some t =>
      cases t with
      | live => simp
      | cancelled => exact absurd hc h
  · intro r hr
    simp [PoolState.destroy, hr]

theorem timer_record_armed_iff_check :
    ((PoolState.run ⟨1, 1, 1, none⟩ [.consume, .fire, .consume]).cycle.isSome = true ↔
      (PoolState.run ⟨1, 1, 1, none⟩ [.consume, .fire, .consume]).cycle = some .live) :=
  (timer_record_armed_iff 1 1 true ⟨1, 1, 1, none⟩ [.consume, .fire, .consume]
    rfl (by decide)).1

/-- Counterexample to claim C7 as stated: after `consume()` then
`destroy()`, the `cycles` record is still present although the pending
timer was cancelled, so no cycle is armed. -/
theorem timer_record_mismatch :
    mkResourcePool 1 1 true = .ok ⟨1, 1, 1, none⟩ ∧
    (PoolState.run ⟨1, 1, 1, none⟩ [.consume, .destroy]).cycle.isSome = true ∧
    (PoolState.run ⟨1, 1, 1, none⟩ [.consume, .destroy]).cycle ≠ some .live :=
  ⟨rfl, by decide, by decide⟩

theorem run_from_cancelled (ops : List PoolOp) (q : PoolState)
    (h : q.cycle = some .cancelled) :
    (q.run ops).cycle = some TimerHandle.cancelled ∧
    q.anyReplenish ops = false ∧ q.anyCallback ops = false ∧
    (q.run ops).remaining ≤ q.remaining := by
  induction ops generalizing q with
  | nil => exact ⟨h, rfl, rfl, le_refl _⟩
  | cons op t ih =>
    have hstep : ((q.step op).state).cycle = some .cancelled ∧
        (q.step op).replenished = false ∧ (q.step op).callbackInvoked = false ∧
        ((q.step op).state).remaining ≤ q.remaining := by
      cases op with
      | consume =>
        by_cases hex : 0 < q.remaining
        · obtain ⟨_, hr, _, _, hc⟩ := consume_of_not_exhausted q hex
          refine ⟨?_, rfl, rfl, ?_⟩
          · show ((q.consume).2).cycle = _
            rw [hc, h]
            simp
          · show ((q.consume).2).remaining ≤ _
            rw [hr]
            omega
        · push_neg at hex
          have he := consume_of_exhausted q hex
          refine ⟨?_, rfl, rfl, ?_⟩
          · show ((q.consume).2).cycle = _
            rw [he]
            exact h
          · show ((q.consume).2).remaining ≤ _
            rw [he]
      | fire =>
        have hc : ¬ q.cycle = some .live := by rw [h]; simp
        simp only [PoolState.step, if_neg hc]
        exact ⟨h, trivial, trivial, le_refl _⟩
      | destroy =>
        have hd : q.destroy = { q with cycle := some .cancelled } := by
          simp [PoolState.destroy, h]
        show (q.destroy).cycle = _ ∧ (false = false) ∧ (false = false) ∧
          (q.destroy).remaining ≤ q.remaining
        rw [hd]
        exact ⟨rfl, rfl, rfl, le_refl _⟩
    obtain ⟨h1, h2, h3, h4⟩ := hstep
    obtain ⟨g1, g2, g3, g4⟩ := ih _ h1
    refine ⟨g1, ?_, ?_, le_trans g4 h4⟩
    · simp [PoolState.anyReplenish, h2, g2]
    · simp [PoolState.anyCallback, h3, g3]

/-- Counterexample to claim C8 as stated: `destroy()` on an idle full
pool is a no-op, so a later `consume()` arms a fresh cycle whose firing
replenishes the pool and invokes the callback — replenishment and a
callback do occur after a `destroy()` call. -/
theorem destroy_callback_counterexample :
    mkResourcePool 1 5 true = .ok ⟨1, 5, 1, none⟩ ∧
    PoolState.anyReplenish ⟨1, 5, 1, none⟩ [.destroy, .consume, .fire] = true ∧
    PoolState.anyCallback ⟨1, 5, 1, none⟩ [.destroy, .consume, .fire] = true :=
  ⟨rfl, by decide, by decide⟩

/-- Claim C8 (amended): `destroy()` cancels the armed timer if a handle
record exists and is a no-op otherwise; it is idempotent; and when a
cycle was pending at the moment of destruction, no replenishment and no
callback invocation ever occurs afterwards, whatever operations follow.
When `destroy()` is called with no handle record, a later `consume()`
can arm a fresh cycle that replenishes and may invoke the callback. -/
theorem destroy_contract (p q : PoolState) (ops : List PoolOp)
    (h : q.cycle = some TimerHandle.live) :
    (p.cycle = none → p.destroy = p) ∧
    (∀ t, p.cycle = some t → p.destroy = { p with cycle := some .cancelled }) ∧
    p.destroy.destroy = p.destroy ∧
    (q.destroy).anyReplenish ops = false ∧
    (q.destroy).anyCallback ops = false := by
  refine ⟨?_, ?_, ?_, ?_, ?_⟩
  · intro hc
    simp [PoolState.destroy, hc]
  · intro t hc
    simp [PoolState.destroy, hc]
  · cases hc : p.cycle <;> simp [PoolState.destroy, hc]
  · have hq : (q.destroy).cycle = some .cancelled := by simp [PoolState.destroy, h]
    exact (run_from_cancelled ops q.destroy hq).2.1
  · have hq : (q.destroy).cycle = some .cancelled := by simp [PoolState.destroy, h]
    exact (run_from_cancelled ops q.destroy hq).2.2.1

theorem destroy_contract_check :
    (⟨1, 5, 1, none⟩ : PoolState).destroy = ⟨1, 5, 1, none⟩ ∧
    ((⟨1, 5, 0, some .live⟩ : PoolState).destroy).anyCallback [.consume, .fire] = false :=
  ⟨(destroy_contract ⟨1, 5, 1, none⟩ ⟨1, 5, 0, some .live⟩ [.consume, .fire] rfl).1 rfl,
   (destroy_contract ⟨1, 5, 1, none⟩ ⟨1, 5, 0, some .live⟩ [.consume, .fire] rfl).2.2.2.2⟩

/-- Counterexample to claim C10 as stated: after `destroy()` on an idle
full pool (no handle record), `consume()` does arm a replenishment
cycle again, and its firing resets `remaining` to capacity. -/
theorem destroyed_pool_rearm :
    mkResourcePool 1 5 true = .ok ⟨1, 5, 1, none⟩ ∧
    (((⟨1, 5, 1, none⟩ : PoolState).destroy).consume).2.cycle = some .live ∧
    (PoolState.run ⟨1, 5, 1, none⟩ [.destroy, .consume]).remaining = 0 ∧
    (PoolState.run ⟨1, 5, 1, none⟩ [.destroy, .consume, .fire]).remaining = 1 :=
  ⟨rfl, by decide, by decide, by decide⟩

/-- Claim C10 (amended): after `destroy()` on a pool whose timer-handle
record is present, `consume()` on a non-exhausted pool still returns
`true` and decrements `remaining`, the stale cancelled record suppresses
re-arming, and along every subsequent operation sequence no
replenishment occurs and `remaining` never increases. -/
theorem destroyed_pool_frozen (p : PoolState) (ops : List PoolOp)
    (h : p.cycle.isSome = true) :
    (0 < (p.destroy).remaining →
       ((p.destroy).consume).1 = true ∧
       ((p.destroy).consume).2.remaining = (p.destroy).remaining - 1 ∧
       ((p.destroy).consume).2.cycle = some TimerHandle.cancelled) ∧
    ((p.destroy).run ops).cycle = some TimerHandle.cancelled ∧
    (p.destroy).anyReplenish ops = false ∧
    ((p.destroy).run ops).remaining ≤ (p.destroy).remaining := by
  have hq : (p.destroy).cycle = some .cancelled := by
    cases hc : p.cycle with
    | none => rw [hc] at h; simp at h
    | some t => simp [PoolState.destroy, hc]
  obtain ⟨g1, g2, _, g4⟩ := run_from_cancelled ops p.destroy hq
  refine ⟨?_, g1, g2, g4⟩
  intro hpos
  obtain ⟨c1, c2, _, _, c5⟩ := consume_of_not_exhausted (p.destroy) hpos
  refine ⟨c1, c2, ?_⟩
  rw [c5, hq]
  simp

theorem destroyed_pool_frozen_check :
    (((⟨2, 5, 2, some .live⟩ : PoolState).destroy).consume).1 = true ∧
    (((⟨2, 5, 2, some .live⟩ : PoolState).destroy).run [.consume, .fire]).cycle =
      some TimerHandle.cancelled :=
  ⟨((destroyed_pool_frozen ⟨2, 5, 2, some .live⟩ [.consume, .fire] rfl).1 (by decide)).1,
   (destroyed_pool_frozen ⟨2, 5, 2, some .live⟩ [.consume, .fire] rfl).2.1⟩

theorem foldl_min_le (l : List Int) (a : Int) :
    l.foldl min a ≤ a ∧ ∀ x ∈ l, l.foldl min a ≤ x := by
  induction l generalizing a with
  | nil => simp
  | cons b t ih =>
    simp only [List.foldl_cons]
    obtain ⟨h1, h2⟩ := ih (min a b)
    refine ⟨le_trans h1 (min_le_left a b), ?_⟩
    intro x hx
    rcases List.mem_cons.mp hx with rfl | hx
    · exact le_trans h1 (min_le_right a x)
    · exact h2 x hx

theorem foldl_min_mem (l : List Int) (a : Int) :
    l.foldl min a = a ∨ l.foldl min a ∈ l := by
  induction l generalizing a with
  | nil => simp
  | cons b t ih =>
    simp only [List.foldl_cons]
    rcases ih (min a b) with h | h
    · rcases min_choice a b with hm | hm
      · left
        rw [h, hm]
      · right
        rw [h, hm]
        exact List.mem_cons_self b t
    · right
      exact List.mem_cons_of_mem b h

theorem groupConsume_of_read (g : List PoolState) (b : Bool)
    (h : groupExhausted g = .ok b) :
    groupConsume g =
      .ok (if b then (false, g) else (true, g.map (fun q => (q.consume).2))) := by
  unfold groupConsume
  rw [h]
  cases b <;> simp

/-- Claim C3: for a group with at least one member, group `remaining`
is the minimum of the members' `remaining` values (a lower bound that
is attained), and group `consume()` is all-or-nothing: when some
member is exhausted it returns `false` and leaves every member
unchanged; otherwise it consumes from every member in insertion order,
each member's counter decrementing by one, and returns `true`. -/
theorem group_min_consume_contract (g : List PoolState) (hg : g ≠ []) :
    ∃ r : Int, groupRemaining g = .ok r ∧
      (∀ q ∈ g, r ≤ q.remaining) ∧ r ∈ g.map (fun q => q.remaining) ∧
      ((∃ q ∈ g, q.remaining ≤ 0) → groupConsume g = .ok (false, g)) ∧
      ((∀ q ∈ g, 0 < q.remaining) →
         groupConsume g = .ok (true, g.map (fun q => (q.consume).2)) ∧
         (∀ q ∈ g, (q.consume).1 = true ∧
            (q.consume).2.remaining = q.remaining - 1)) := by
  cases g with
  | nil => exact absurd rfl hg
  | cons p ps =>
    obtain ⟨hb1, hb2⟩ := foldl_min_le (ps.map (fun q => q.remaining)) p.remaining
    have hlow : ∀ q ∈ p :: ps,
        (ps.map (fun q => q.remaining)).foldl min p.remaining ≤ q.remaining := by
      intro q hq
      rcases List.mem_cons.mp hq with rfl | hq
      · exact hb1
      · exact hb2 _ (List.mem_map_of_mem _ hq)
    have hmem : (ps.map (fun q => q.remaining)).foldl min p.remaining ∈
        (p :: ps).map (fun q => q.remaining) := by
      rcases foldl_min_mem (ps.map (fun q => q.remaining)) p.remaining with h | h
      · rw [h]
        exact List.mem_cons_self _ _
      · exact List.mem_cons_of_mem _ h
    refine ⟨_, rfl, hlow, hmem, ?_, ?_⟩
    · rintro ⟨q, hq, hq0⟩
      have hr0 : (ps.map (fun q => q.remaining)).foldl min p.remaining ≤ 0 :=
        le_trans (hlow q hq) hq0
      have hexh : groupExhausted (p :: ps) =
          .ok (decide ((ps.map (fun q => q.remaining)).foldl min p.remaining ≤ 0)) := rfl
      rw [groupConsume_of_read _ _ hexh, decide_eq_true hr0]
      simp
    · intro hall
      obtain ⟨q, hq, hqr⟩ := List.mem_map.mp hmem
      have hr0 : ¬ (ps.map (fun q => q.remaining)).foldl min p.remaining ≤ 0 := by
        rw [← hqr]
        have := hall q hq
        omega
      have hexh : groupExhausted (p :: ps) =
          .ok (decide ((ps.map (fun q => q.remaining)).foldl min p.remaining ≤ 0)) := rfl
      rw [groupConsume_of_read _ _ hexh, decide_eq_false hr0]
      refine ⟨by simp, ?_⟩
      intro q hq
      obtain ⟨c1, c2, _, _, _⟩ := consume_of_not_exhausted q (hall q hq)
      exact ⟨c1, c2⟩

theorem group_min_consume_check :
    groupConsume [(⟨2, 10, 2, none⟩ : PoolState), ⟨5, 10, 5, none⟩] =
      .ok (true, [⟨2, 10, 1, some .live⟩, ⟨5, 10, 4, some .live⟩]) := by
  obtain ⟨r, h1, h2, h3, h4, h5⟩ :=
    group_min_consume_contract [⟨2, 10, 2, none⟩, ⟨5, 10, 5, none⟩] (by decide)
  have h := (h5 (by decide)).1
  exact h.trans (by rfl)

/-- Claim C4: reading group `remaining` or `exhausted` fails with
`NoResourcePoolsFound` exactly when the group has zero members; with
at least one member both reads succeed (they are pure functions of the
state, so they have no side effects). -/
theorem group_read_errors (g : List PoolState) :
    (groupRemaining ([] : List PoolState) = .error .noResourcePoolsFound) ∧
    (groupExhausted ([] : List PoolState) = .error .noResourcePoolsFound) ∧
    (g ≠ [] → ∃ r : Int, groupRemaining g = .ok r ∧
       groupExhausted g = .ok (decide (r ≤ 0))) := by
  refine ⟨rfl, rfl, ?_⟩
  intro hg
  cases g with
  | nil => exact absurd rfl hg
  | cons p ps => exact ⟨_, rfl, rfl⟩

theorem group_read_errors_check :
    groupExhausted [(⟨1, 1, 1, none⟩ : PoolState)] = .ok false := by
  obtain ⟨r, h1, h2⟩ :=
    (group_read_errors [(⟨1, 1, 1, none⟩ : PoolState)]).2.2 (by decide)
  have hr : (1 : Int) = r :=
    Except.ok.inj ((rfl :
      groupRemaining [(⟨1, 1, 1, none⟩ : PoolState)] = .ok 1).symm.trans h1)
  rw [← hr] at h2
  simpa using h2

/-- Counterexample to claim C5 as stated: group `consume()` on a group
with zero members raises `NoResourcePoolsFound` — the `exhausted` read
inside `consume` propagates the empty-group error — so `consume` is not
error-free in every state. -/
theorem group_consume_empty_throws :
    groupConsume ([] : List PoolState) = .error .noResourcePoolsFound := rfl

/-- Claim C5 (amended): pool `consume()` and `destroy()` never raise
(in the embedding they are total functions returning a Boolean resp. a
state), group `destroy()` unconditionally processes every member, and
group `consume()` succeeds with a Boolean exactly when the group has at
least one member; on a zero-member group it raises
`NoResourcePoolsFound`. -/
theorem consume_destroy_no_error (g : List PoolState) (p : PoolState) :
    ((groupConsume g).isOk = true ↔ g ≠ []) ∧
    (groupConsume ([] : List PoolState) = .error .noResourcePoolsFound) ∧
    ((p.consume).1 = true ∨ (p.consume).1 = false) ∧
    (groupDestroy g).length = g.length := by
  refine ⟨?_, rfl, ?_, by simp [groupDestroy]⟩
  · cases g with
    | nil =>
      simp only [ne_eq, not_true_eq_false, iff_false, Bool.not_eq_true]
      rfl
    | cons q qs =>
      have hexh : groupExhausted (q :: qs) =
          .ok (decide ((qs.map (fun x => x.remaining)).foldl min q.remaining ≤ 0)) := rfl
      rw [groupConsume_of_read _ _ hexh]
      cases (decide ((qs.map (fun x => x.remaining)).foldl min q.remaining ≤ 0)) <;>
        simp only [ne_eq, reduceCtorEq, not_false_eq_true, iff_true, if_true, if_false] <;>
        rfl
  · cases h : (p.consume).1 <;> simp

theorem consume_destroy_no_error_check :
    (groupConsume [(⟨1, 1, 0, none⟩ : PoolState)]).isOk = true :=
  (consume_destroy_no_error [(⟨1, 1, 0, none⟩ : PoolState)] ⟨1, 1, 1, none⟩).1.mpr
    (by decide)

/-- Counterexample to claim C9 as stated: a positive non-integer
interval (7/2) is rejected with the very same error kind
(`Invalid interval value. Must be positive.`) as a non-positive
interval, so the non-integer-interval rejection is not distinguishable
from the non-positive-interval rejection. -/
theorem interval_error_kind_shared :
    mkResourcePool 1 ratSevenHalves true = .error .invalidIntervalValue ∧
    mkResourcePool 1 (-1) true = .error .invalidIntervalValue ∧
    mkResourcePool 1 0 true = .error .invalidIntervalValue :=
  ⟨rfl, rfl, rfl⟩

/-- Claim C9 (amended): the constructor validates in the fixed order
capacity-positive, capacity-integer, interval-positive,
interval-integer, callback-callable, failing fast with exactly one
error at the first violated rule; the capacity violations and the
callback violation carry distinct error kinds, but a non-integer
interval is rejected with the same `InvalidIntervalValue` kind as a
non-positive interval; on success `remaining = capacity` and no timer
is armed. -/
theorem ctor_contract (ps iv : ℚ) (cb : Bool) :
    (¬ 0 < ps → mkResourcePool ps iv cb = .error .invalidPoolSizeValue) ∧
    (0 < ps → ps.den ≠ 1 → mkResourcePool ps iv cb = .error .invalidPoolSizeType) ∧
    (0 < ps → ps.den = 1 → ¬ 0 < iv →
       mkResourcePool ps iv cb = .error .invalidIntervalValue) ∧
    (0 < ps → ps.den = 1 → 0 < iv → iv.den ≠ 1 →
       mkResourcePool ps iv cb = .error .invalidIntervalValue) ∧
    (0 < ps → ps.den = 1 → 0 < iv → iv.den = 1 → cb = false →
       mkResourcePool ps iv cb = .error .invalidCallbackType) ∧
    (0 < ps → ps.den = 1 → 0 < iv → iv.den = 1 → cb = true →
       mkResourcePool ps iv cb = .ok ⟨ps.num, iv.num, ps.num, none⟩) := by
  refine ⟨?_, ?_, ?_, ?_, ?_, ?_⟩ <;> intros <;>
    simp_all [mkResourcePool, isPositive, isInt]

theorem ctor_contract_check :
    mkResourcePool (-1) 1 true = .error .invalidPoolSizeValue ∧
    mkResourcePool ratSevenHalves 1 true = .error .invalidPoolSizeType ∧
    mkResourcePool 2 (-3) true = .error .invalidIntervalValue ∧
    mkResourcePool 2 ratSevenHalves true = .error .invalidIntervalValue ∧
    mkResourcePool 2 4 false = .error .invalidCallbackType ∧
    mkResourcePool 2 4 true = .ok ⟨2, 4, 2, none⟩ :=
  ⟨(ctor_contract (-1) 1 true).1 (by decide),
   (ctor_contract ratSevenHalves 1 true).2.1 (by decide) (by decide),
   (ctor_contract 2 (-3) true).2.2.1 (by decide) (by decide) (by decide),
   (ctor_contract 2 ratSevenHalves true).2.2.2.1 (by decide) (by decide)
     (by decide) (by decide),
   (ctor_contract 2 4 false).2.2.2.2.1 (by decide) (by decide) (by decide)
     (by decide) rfl,
   (ctor_contract 2 4 true).2.2.2.2.2 (by decide) (by decide) (by decide)
     (by decide) rfl⟩

end ResourcePoolModel
